import Mathlib

/-!
Verification of the RSA key-material subsystem of the repository
(`adafruit_rsa/key.py`), shallowly embedded in Lean 4.

The file `key.py` is embedded from its source.  Its leaf collaborators
(`adafruit_rsa.common`, `adafruit_rsa.core`, `adafruit_rsa.prime`,
`adafruit_rsa.randnum`) are not part of the provided sources, so they are
modelled from the specification, as indicated in their doc comments.
Python arbitrary-precision non-negative integers are embedded as `Nat`;
Python exceptions are embedded as an explicit error type carried by
`Except`; the randomized prime source and the random blinding factor are
passed explicitly (a prime stream indexed by a call counter, and an `r`
argument); unbounded `while` loops are given explicit fuel, returning
`none` when the fuel runs out.
-/

/-- The Python exceptions raised by the RSA key subsystem, one constructor
per raise site.  `notRelativePrime`, `keyTooSmall`, `poolSizeError`,
`notMultInv`, `versionError` and `unsupportedFormat` are all `ValueError`s
in the source (`NotRelativePrimeError` derives from `ValueError`);
`notImplementedError` is Python's `NotImplementedError`, and
`zeroDivisionError` is Python's `ZeroDivisionError` (an
`ArithmeticError`, not a `ValueError`), raised by `%` on a zero
modulus. -/
inductive RSAError where
  | notRelativePrime (a m d : ℕ) (msg : String)
  | keyTooSmall
  | poolSizeError (poolsize : ℕ)
  | notMultInv (e d phi : ℕ)
  | versionError (version : ℕ)
  | unsupportedFormat (format : String) (supported : String)
  | notImplementedError (msg : String)
  | zeroDivisionError
  deriving DecidableEq, Repr

/-- Whether the exception is a `ValueError` in Python's class hierarchy. -/
def RSAError.isValueError : RSAError → Bool
  | .notImplementedError _ => false
  | .zeroDivisionError => false
  | _ => true

/-- Modelled from the spec: `bit_length(x)`, the number of bits in the
binary representation of a non-negative integer (`adafruit_rsa.common.bit_size`,
not under src/).  Matches Python `int.bit_length`: `0` has zero bits, a
positive `x` has `floor(log2 x) + 1` bits.  The first argument is fuel,
always instantiated with `x` itself, which bounds the number of halvings. -/
def bit_size_fuel : ℕ → ℕ → ℕ
  | 0, _ => 0
  | fuel + 1, x => if x = 0 then 0 else bit_size_fuel fuel (x / 2) + 1

/-- Modelled from the spec: `bit_length` of `x` (see `bit_size_fuel`). -/
def bit_size (x : ℕ) : ℕ := bit_size_fuel x x

/-- Modelled from the spec: `mod_pow(base, exponent, modulus)` returns
`base^exponent mod modulus` (`adafruit_rsa.core.fast_pow`, not under src/;
the binary-exponentiation strategy is an implementation detail, the
contract is the returned value). -/
def fast_pow (base exponent modulus : ℕ) : ℕ := base ^ exponent % modulus

/-- Modelled from the spec: extended Euclidean algorithm
(`adafruit_rsa.common.extended_gcd`, not under src/).  `egcd fuel a b`
returns `(g, x, y)` with `g = gcd a b` and `a*x + b*y = g`, provided
`b ≤ fuel`; the fuel makes the recursion structural. -/
def egcd : ℕ → ℕ → ℕ → ℕ × ℤ × ℤ
  | 0, a, _ => (a, 1, 0)
  | fuel + 1, a, b =>
    if b = 0 then (a, 1, 0)
    else ((egcd fuel b (a % b)).1, (egcd fuel b (a % b)).2.2,
          (egcd fuel b (a % b)).2.1 - ((a / b : ℕ) : ℤ) * (egcd fuel b (a % b)).2.2)

/-- Modelled from the spec: `mod_inverse(a, m)` via the extended Euclidean
algorithm (`adafruit_rsa.common.inverse`, not under src/).  Fails with
`NotRelativePrimeError` carrying the offending GCD when `gcd(a, m) ≠ 1`;
otherwise returns the Bézout coefficient of `a` reduced into `[0, m)`. -/
def inverse (a m : ℕ) : Except RSAError ℕ :=
  if (egcd m a m).1 ≠ 1 then
    .error (.notRelativePrime a m (egcd m a m).1
      (toString a ++ " and " ++ toString m ++ " are not relatively prime, divider=" ++
        toString (egcd m a m).1))
  else
    .ok (((egcd m a m).2.1 % (m : ℤ)).toNat)

/-- Correctness of `egcd`: it computes the gcd together with a Bézout identity. -/
theorem egcd_spec : ∀ (fuel a b : ℕ), b ≤ fuel →
    (egcd fuel a b).1 = Nat.gcd a b ∧
      (a : ℤ) * (egcd fuel a b).2.1 + (b : ℤ) * (egcd fuel a b).2.2 = (egcd fuel a b).1 := by
  intro fuel
  induction fuel with
  | zero =>
    intro a b hb
    have hb0 : b = 0 := Nat.le_zero.mp hb
    subst hb0
    exact ⟨by simp [egcd], by simp [egcd]⟩
  | succ f ih =>
    intro a b hb
    by_cases hb0 : b = 0
    · subst hb0
      exact ⟨by simp [egcd], by simp [egcd]⟩
    · have hrec : a % b ≤ f := by
        have h1 : a % b < b := Nat.mod_lt _ (Nat.pos_of_ne_zero hb0)
        omega
      obtain ⟨hg, hbez⟩ := ih b (a % b) hrec
      have hmod : ((a % b : ℕ) : ℤ) = (a : ℤ) - (b : ℤ) * ((a / b : ℕ) : ℤ) := by
        have h := Nat.mod_add_div a b
        have h2 : ((a % b : ℕ) : ℤ) + (b : ℤ) * ((a / b : ℕ) : ℤ) = (a : ℤ) := by
          exact_mod_cast h
        linarith
      constructor
      · simp only [egcd, if_neg hb0]
        rw [hg, Nat.gcd_comm b (a % b), ← Nat.gcd_rec b a, Nat.gcd_comm b a]
      · simp only [egcd, if_neg hb0]
        rw [hmod] at hbez
        linear_combination hbez

/-- When `inverse a m` succeeds, the returned value is a modular inverse
of `a` modulo `m`. -/
theorem inverse_ok {a m b : ℕ} (h : inverse a m = .ok b) : a * b ≡ 1 [MOD m] := by
  unfold inverse at h
  by_cases hg : (egcd m a m).1 ≠ 1
  · simp [hg] at h
  · push_neg at hg
    simp only [hg, ne_eq, not_true_eq_false, if_false, reduceIte, Except.ok.injEq] at h
    obtain ⟨hgcd, hbez⟩ := egcd_spec m a m le_rfl
    rw [hg] at hbez
    rcases Nat.eq_zero_or_pos m with hm | hm
    · subst hm
      have hr : egcd 0 a 0 = (a, 1, 0) := rfl
      have ha : a = 1 := by rw [hr] at hg; exact hg
      subst ha
      rw [hr] at h
      simp at h
      subst h
      rfl
    · have hm0 : (m : ℤ) ≠ 0 := by exact_mod_cast hm.ne'
      have hnonneg : 0 ≤ (egcd m a m).2.1 % (m : ℤ) := Int.emod_nonneg _ hm0
      have hcast : (b : ℤ) = (egcd m a m).2.1 % (m : ℤ) := by
        rw [← h]; exact Int.toNat_of_nonneg hnonneg
      rw [← Int.natCast_modEq_iff]
      push_cast
      calc (a : ℤ) * b ≡ a * (egcd m a m).2.1 [ZMOD m] := by
            rw [hcast]; exact Int.ModEq.mul_left a (Int.mod_modEq _ _)
        _ ≡ 1 [ZMOD m] := by
            rw [Int.modEq_iff_dvd]
            exact ⟨(egcd m a m).2.2, by linear_combination -hbez⟩

/-- Class `PublicKey` from `key.py`: modulus `n` and public exponent `e`
(equality is by `(n, e)`, as derived `DecidableEq` gives). -/
structure PublicKey where
  n : ℕ
  e : ℕ
  deriving DecidableEq, Repr

/-- Class `PrivateKey` from `key.py`: the five primary fields `n e d p q` and the
three derived CRT fields `exp1 exp2 coef` stored by `__init__`. -/
structure PrivateKey where
  n : ℕ
  e : ℕ
  d : ℕ
  p : ℕ
  q : ℕ
  exp1 : ℕ
  exp2 : ℕ
  coef : ℕ
  deriving DecidableEq, Repr

/-- Python's `int(d % (p - 1))` on signed integers, for a non-negative
`p`: at `p = 0` the modulus is `-1` and the result is `0`; at `p ≥ 2` it
is `d mod (p-1)`.  (`p = 1`, the zero modulus, raises and is handled by
the caller.) -/
def py_mod_sub_one (d p : ℕ) : ℕ := if p = 0 then 0 else d % (p - 1)

/-- Constructor `PrivateKey.__init__(n, e, d, p, q)` from `key.py`: stores the five
arguments and recomputes `exp1 = int(d % (p - 1))`, then
`exp2 = int(d % (q - 1))`, then `coef = inverse(q, p)`, in that order.
`%` raises `ZeroDivisionError` on a zero modulus, i.e. when `p = 1`
(first) or `q = 1`, and the `inverse` call raises
`NotRelativePrimeError` when `q` is not invertible modulo `p`, so
construction is fallible. -/
def privateKey_init (n e d p q : ℕ) : Except RSAError PrivateKey :=
  if p = 1 then .error .zeroDivisionError
  else if q = 1 then .error .zeroDivisionError
  else
    match inverse q p with
    | .error err => .error err
    | .ok coef => .ok ⟨n, e, d, p, q, py_mod_sub_one d p, py_mod_sub_one d q, coef⟩

/-- Method `PrivateKey.__setstate__(state)` from `key.py`: installs all eight
fields, the derived CRT fields included, directly from the state tuple. -/
def setstate (state : ℕ × ℕ × ℕ × ℕ × ℕ × ℕ × ℕ × ℕ) : PrivateKey :=
  ⟨state.1, state.2.1, state.2.2.1, state.2.2.2.1, state.2.2.2.2.1,
    state.2.2.2.2.2.1, state.2.2.2.2.2.2.1, state.2.2.2.2.2.2.2⟩

/-- Method `AbstractKey.blind(message, r)` from `key.py`:
`(message * fast_pow(r, e, n)) % n`, for a key with modulus `n` and
exponent `e`. -/
def blind (n e message r : ℕ) : ℕ := (message * fast_pow r e n) % n

/-- Method `AbstractKey.unblind(blinded, r)` from `key.py`:
`(inverse(r, n) * blinded) % n`; propagates the `NotRelativePrimeError`
of `inverse` when `r` is not coprime to `n`. -/
def unblind (n blinded r : ℕ) : Except RSAError ℕ :=
  match inverse r n with
  | .error err => .error err
  | .ok ri => .ok ((ri * blinded) % n)

/-- Modelled from the spec: `adafruit_rsa.core.encrypt_int` (not under
src/), the raw RSA operation `mod_pow(message, ekey, n)`. -/
def encrypt_int (message ekey n : ℕ) : ℕ := fast_pow message ekey n

/-- Modelled from the spec: `adafruit_rsa.core.decrypt_int` (not under
src/), the raw RSA operation `mod_pow(encrypted, dkey, n)`. -/
def decrypt_int (encrypted dkey n : ℕ) : ℕ := fast_pow encrypted dkey n

/-- Method `PrivateKey.blinded_decrypt(encrypted)` from `key.py`.  The blinding
factor `blind_r`, drawn in the source from `adafruit_rsa.randnum.randint(n - 1)`
(uniform on `[1, n-1]`, not under src/), is passed explicitly. -/
def blinded_decrypt (key : PrivateKey) (blind_r encrypted : ℕ) : Except RSAError ℕ :=
  unblind key.n (decrypt_int (blind key.n key.e encrypted blind_r) key.d key.n) blind_r

/-- The decoded ASN.1 `RSAPrivateKey` SEQUENCE consumed by
`PrivateKey._load_pkcs1_der` in `key.py`: nine DER INTEGER fields
`version, n, e, d, p, q, exp1, exp2, coef` (DER integers here are
non-negative). -/
structure DecodedPrivKeySeq where
  version : ℕ
  n : ℕ
  e : ℕ
  d : ℕ
  p : ℕ
  q : ℕ
  exp1 : ℕ
  exp2 : ℕ
  coef : ℕ
  deriving DecidableEq, Repr

/-- Classmethod `PrivateKey._load_pkcs1_der` from `key.py`, taken after the pyasn1
decoder has produced the integer sequence: raises `ValueError` when the
version field is nonzero; otherwise builds the key through
`PrivateKey.__init__` from the first five integers (which recomputes the
CRT fields) and compares the recomputed `exp1, exp2, coef` with the
encoded ones, only emitting a debug log on mismatch.  The returned `Bool`
records whether that log line was emitted. -/
def load_pkcs1_der (s : DecodedPrivKeySeq) : Except RSAError (PrivateKey × Bool) :=
  if s.version ≠ 0 then .error (.versionError s.version)
  else
    match privateKey_init s.n s.e s.d s.p s.q with
    | .error err => .error err
    | .ok key =>
      .ok (key, decide (¬(key.exp1 = s.exp1 ∧ key.exp2 = s.exp2 ∧ key.coef = s.coef)))

/-- The two serialization methods an `AbstractKey` dispatches between;
the DER/PEM byte production itself lives in pyasn1 (not under src/), so
the model records which method the dispatch selects. -/
inductive KeyMethod where
  | pem
  | der
  deriving DecidableEq, Repr

/-- Lexicographic strict order on character lists (Python string `<`). -/
def chars_lt : List Char → List Char → Bool
  | [], [] => false
  | [], _ :: _ => true
  | _ :: _, [] => false
  | c :: cs, d :: ds =>
    if c.toNat < d.toNat then true
    else if d.toNat < c.toNat then false
    else chars_lt cs ds

/-- Insert a string into a sorted list (ascending), keeping it sorted. -/
def insort (x : String) : List String → List String
  | [] => [x]
  | y :: ys => if chars_lt x.data y.data then x :: y :: ys else y :: insort x ys

/-- Sort a list of strings ascending (Python `sorted`), by insertion. -/
def sort_strings : List String → List String
  | [] => []
  | x :: xs => insort x (sort_strings xs)

/-- Static method `AbstractKey._assert_format_exists(file_format, methods)` from
`key.py`: looks the format up in the methods dict, and on a miss raises
`ValueError("Unsupported format: %r, try one of %s")` where the second
part is the comma-join of the sorted dict keys. -/
def assert_format_exists {α : Type} (file_format : String) (methods : List (String × α)) :
    Except RSAError α :=
  match methods.lookup file_format with
  | some m => .ok m
  | none =>
    .error (.unsupportedFormat file_format
      (String.intercalate ", " (sort_strings (methods.map Prod.fst))))

/-- Method `AbstractKey.save_pkcs1(format)` from `key.py`: dispatches through
`_assert_format_exists` over the dict `{'PEM': _save_pkcs1_pem, 'DER':
_save_pkcs1_der}`. -/
def save_pkcs1 (format : String) : Except RSAError KeyMethod :=
  assert_format_exists format [("PEM", KeyMethod.pem), ("DER", KeyMethod.der)]

/-- Method `AbstractKey.load_pkcs1(keyfile, format)` from `key.py`: the dispatch
over `{'PEM', 'DER'}` is commented out in the source and the method
unconditionally raises `NotImplementedError`. -/
def load_pkcs1 (format : String) : Except RSAError KeyMethod :=
  .error (.notImplementedError "Loading PEM Files not supported by this CircuitPython library.")

/-- Function `calculate_keys_custom_exponent(p, q, exponent)` from `key.py`:
computes `phi_n = (p-1)(q-1)` and `d = inverse(exponent, phi_n)`,
re-raising the not-relatively-prime error with a contextual message, then
defensively checks `(exponent * d) % phi_n == 1` and raises `ValueError`
when violated; on success returns `(exponent, d)`. -/
def calculate_keys_custom_exponent (p q exponent : ℕ) : Except RSAError (ℕ × ℕ) :=
  match inverse exponent ((p - 1) * (q - 1)) with
  | .error (.notRelativePrime _ _ g _) =>
    .error (.notRelativePrime exponent ((p - 1) * (q - 1)) g
      ("e (" ++ toString exponent ++ ") and phi_n (" ++ toString ((p - 1) * (q - 1)) ++
        ") are not relatively prime (divider=" ++ toString g ++ ")"))
  | .error err => .error err
  | .ok d =>
    if (exponent * d) % ((p - 1) * (q - 1)) ≠ 1 then
      .error (.notMultInv exponent d ((p - 1) * (q - 1)))
    else
      .ok (exponent, d)

/-- Function `calculate_keys(p, q)` from `key.py`: fixes `exponent = 65537`. -/
def calculate_keys (p q : ℕ) : Except RSAError (ℕ × ℕ) :=
  calculate_keys_custom_exponent p q 65537

/-- The `is_acceptable(p, q)` closure inside `find_p_q` in `key.py`:
rejects `p == q`, and in accurate mode additionally requires
`bit_size(p * q) == total_bits`. -/
def is_acceptable (accurate : Bool) (total_bits p q : ℕ) : Bool :=
  if p = q then false
  else if !accurate then true
  else decide (total_bits = bit_size (p * q))

/-- The `while not is_acceptable(p, q)` loop of `find_p_q` in `key.py`.
`gp j bits` is the value returned by the `j`-th call of `getprime_func`
(the randomized `adafruit_rsa.prime.getprime` is modelled as a stream of
outputs indexed by a call counter `k`); `change_p` alternates which prime
is re-sampled, starting with `q`.  Returns the accepted pair as
`(max, min)` together with the next counter value, or `none` when the
fuel is exhausted. -/
def find_p_q_loop (gp : ℕ → ℕ → ℕ) (accurate : Bool) (total_bits pbits qbits : ℕ) :
    ℕ → ℕ → ℕ → ℕ → Bool → Option ((ℕ × ℕ) × ℕ)
  | fuel, k, p, q, change_p =>
    if is_acceptable accurate total_bits p q then some ((max p q, min p q), k)
    else
      match fuel with
      | 0 => none
      | fuel' + 1 =>
        if change_p then
          find_p_q_loop gp accurate total_bits pbits qbits fuel' (k + 1) (gp k pbits) q false
        else
          find_p_q_loop gp accurate total_bits pbits qbits fuel' (k + 1) p (gp k qbits) true

/-- Function `find_p_q(nbits, getprime_func, accurate)` from `key.py`: draws the
initial `p` of `nbits + nbits/16` bits and `q` of `nbits - nbits/16`
bits, then runs the acceptability loop. -/
def find_p_q (gp : ℕ → ℕ → ℕ) (k nbits : ℕ) (accurate : Bool) (fuel : ℕ) :
    Option ((ℕ × ℕ) × ℕ) :=
  find_p_q_loop gp accurate (nbits * 2) (nbits + nbits / 16) (nbits - nbits / 16) fuel
    (k + 2) (gp k (nbits + nbits / 16)) (gp (k + 1) (nbits - nbits / 16)) false

/-- The retry loop of `gen_keys` in `key.py`: regenerates `(p, q)` until
`calculate_keys_custom_exponent` does not raise a `ValueError` (both of
its failures are `ValueError`s). -/
def gen_keys_loop (gp : ℕ → ℕ → ℕ) (exponent : ℕ) (accurate : Bool) (nbits : ℕ) :
    ℕ → ℕ → Option ((ℕ × ℕ × ℕ × ℕ) × ℕ)
  | 0, _ => none
  | fuel + 1, k =>
    match find_p_q gp k (nbits / 2) accurate fuel with
    | none => none
    | some ((p, q), k2) =>
      match calculate_keys_custom_exponent p q exponent with
      | .ok (e, d) => some ((p, q, e, d), k2)
      | .error _ => gen_keys_loop gp exponent accurate nbits fuel k2

/-- Function `gen_keys(nbits, getprime_func, accurate, exponent)` from `key.py`. -/
def gen_keys (gp : ℕ → ℕ → ℕ) (k nbits : ℕ) (accurate : Bool) (exponent fuel : ℕ) :
    Option ((ℕ × ℕ × ℕ × ℕ) × ℕ) :=
  gen_keys_loop gp exponent accurate nbits fuel k

/-- Function `newkeys(nbits, accurate, poolsize, exponent)` from `key.py`: checks
`nbits >= 16` and `poolsize >= 1`, generates `(p, q, e, d)`, and builds
`(PublicKey(n, e), PrivateKey(n, e, d, p, q))` with `n = p * q`.
`poolsize` is validated but takes no further part in generation.  `none`
means the modelled prime search ran out of fuel; `some` carries the
Python result (a raised error or the returned pair). -/
def newkeys (gp : ℕ → ℕ → ℕ) (k nbits : ℕ) (accurate : Bool) (poolsize exponent fuel : ℕ) :
    Option (Except RSAError (PublicKey × PrivateKey)) :=
  if nbits < 16 then some (.error .keyTooSmall)
  else if poolsize < 1 then some (.error (.poolSizeError poolsize))
  else
    match gen_keys gp k nbits accurate exponent fuel with
    | none => none
    | some ((p, q, e, d), _) =>
      match privateKey_init (p * q) e d p q with
      | .error err => some (.error err)
      | .ok priv => some (.ok (⟨p * q, e⟩, priv))

/-- The gcd computed inside `inverse` is `Nat.gcd`. -/
theorem egcd_gcd (a m : ℕ) : (egcd m a m).1 = Nat.gcd a m :=
  (egcd_spec m a m le_rfl).1

/-- Failure shape of `inverse`: it fails, with the gcd in the payload, exactly on non-coprime
arguments. -/
theorem inverse_error (a m : ℕ) (h : Nat.gcd a m ≠ 1) :
    inverse a m = .error (.notRelativePrime a m (Nat.gcd a m)
      (toString a ++ " and " ++ toString m ++ " are not relatively prime, divider=" ++
        toString (Nat.gcd a m))) := by
  unfold inverse
  rw [egcd_gcd]
  simp [h]

/-- On coprime arguments `inverse` succeeds. -/
theorem inverse_ok_of_gcd (a m : ℕ) (h : Nat.gcd a m = 1) :
    inverse a m = .ok (((egcd m a m).2.1 % (m : ℤ)).toNat) := by
  unfold inverse
  rw [egcd_gcd]
  simp [h]

/-- Any error of `inverse` is the not-relatively-prime error carrying the
gcd. -/
theorem inverse_error_shape {a m : ℕ} {err : RSAError} (h : inverse a m = .error err) :
    Nat.gcd a m ≠ 1 ∧
      err = .notRelativePrime a m (Nat.gcd a m)
        (toString a ++ " and " ++ toString m ++ " are not relatively prime, divider=" ++
          toString (Nat.gcd a m)) := by
  by_cases hg : Nat.gcd a m = 1
  · rw [inverse_ok_of_gcd a m hg] at h
    exact absurd h (by simp)
  · rw [inverse_error a m hg] at h
    simp only [Except.error.injEq] at h
    exact ⟨hg, h.symm⟩

/-- A successful `inverse` implies coprime arguments. -/
theorem inverse_ok_gcd {a m b : ℕ} (h : inverse a m = .ok b) : Nat.gcd a m = 1 := by
  by_cases hg : Nat.gcd a m = 1
  · exact hg
  · rw [inverse_error a m hg] at h
    exact absurd h (by simp)

/-- Reading off the fields of a successfully constructed `PrivateKey`;
success forces `p ≥ 2` and `q ≥ 2` (a unit prime raises
`ZeroDivisionError`, a zero one makes `inverse(q, p)` fail), so the
derived exponents are the plain `d mod (p-1)` and `d mod (q-1)`. -/
theorem privateKey_init_ok {n e d p q : ℕ} {key : PrivateKey}
    (h : privateKey_init n e d p q = .ok key) :
    key.n = n ∧ key.e = e ∧ key.d = d ∧ key.p = p ∧ key.q = q ∧
      key.exp1 = d % (p - 1) ∧ key.exp2 = d % (q - 1) ∧ inverse q p = .ok key.coef := by
  unfold privateKey_init at h
  by_cases hp1 : p = 1
  · rw [if_pos hp1] at h; exact absurd h (by simp)
  · rw [if_neg hp1] at h
    by_cases hq1 : q = 1
    · rw [if_pos hq1] at h; exact absurd h (by simp)
    · rw [if_neg hq1] at h
      cases hinv : inverse q p with
      | error err => rw [hinv] at h; exact absurd h (by simp)
      | ok c =>
        rw [hinv] at h
        simp only [Except.ok.injEq] at h
        subst h
        have hg : Nat.gcd q p = 1 := inverse_ok_gcd hinv
        have hp0 : p ≠ 0 := by
          intro h0; subst h0; rw [Nat.gcd_zero_right] at hg; exact hq1 hg
        have hq0 : q ≠ 0 := by
          intro h0; subst h0; rw [Nat.gcd_zero_left] at hg; exact hp1 hg
        refine ⟨rfl, rfl, rfl, rfl, rfl, ?_, ?_, rfl⟩
        · show py_mod_sub_one d p = d % (p - 1)
          unfold py_mod_sub_one
          rw [if_neg hp0]
        · show py_mod_sub_one d q = d % (q - 1)
          unfold py_mod_sub_one
          rw [if_neg hq0]

/-- A failing `PrivateKey` construction raises `ZeroDivisionError` when
`p = 1` or `q = 1`, and otherwise fails inside `inverse(q, p)`. -/
theorem privateKey_init_error {n e d p q : ℕ} {err : RSAError}
    (h : privateKey_init n e d p q = .error err) :
    ((p = 1 ∨ q = 1) ∧ err = .zeroDivisionError) ∨
    (Nat.gcd q p ≠ 1 ∧
      err = .notRelativePrime q p (Nat.gcd q p)
        (toString q ++ " and " ++ toString p ++ " are not relatively prime, divider=" ++
          toString (Nat.gcd q p))) := by
  unfold privateKey_init at h
  by_cases hp1 : p = 1
  · rw [if_pos hp1] at h
    simp only [Except.error.injEq] at h
    exact Or.inl ⟨Or.inl hp1, h.symm⟩
  · rw [if_neg hp1] at h
    by_cases hq1 : q = 1
    · rw [if_pos hq1] at h
      simp only [Except.error.injEq] at h
      exact Or.inl ⟨Or.inr hq1, h.symm⟩
    · rw [if_neg hq1] at h
      cases hinv : inverse q p with
      | error e2 =>
        rw [hinv] at h
        simp only [Except.error.injEq] at h
        subst h
        exact Or.inr (inverse_error_shape hinv)
      | ok c => rw [hinv] at h; exact absurd h (by simp)

/-- Reading off a successful private-key DER decode. -/
theorem load_pkcs1_der_ok {s : DecodedPrivKeySeq} {key : PrivateKey} {logged : Bool}
    (h : load_pkcs1_der s = .ok (key, logged)) :
    s.version = 0 ∧ privateKey_init s.n s.e s.d s.p s.q = .ok key ∧
      logged = decide (¬(key.exp1 = s.exp1 ∧ key.exp2 = s.exp2 ∧ key.coef = s.coef)) := by
  unfold load_pkcs1_der at h
  by_cases hv : s.version ≠ 0
  · simp [hv] at h
  · push_neg at hv
    simp only [hv, ne_eq, not_true_eq_false, if_false, reduceIte] at h
    cases hinit : privateKey_init s.n s.e s.d s.p s.q with
    | error err => rw [hinit] at h; exact absurd h (by simp)
    | ok key2 =>
      rw [hinit] at h
      simp only [Except.ok.injEq, Prod.mk.injEq] at h
      obtain ⟨hk, hl⟩ := h
      subst hk
      exact ⟨hv, rfl, hl.symm⟩

/-- A successful `calculate_keys_custom_exponent` returns the requested
exponent with a verifying `d`. -/
theorem calculate_keys_ok {p q exponent e d : ℕ}
    (h : calculate_keys_custom_exponent p q exponent = .ok (e, d)) :
    e = exponent ∧ (exponent * d) % ((p - 1) * (q - 1)) = 1 := by
  unfold calculate_keys_custom_exponent at h
  cases hinv : inverse exponent ((p - 1) * (q - 1)) with
  | error err => cases err <;> (rw [hinv] at h; exact absurd h (by simp))
  | ok d2 =>
    rw [hinv] at h
    by_cases hch : (exponent * d2) % ((p - 1) * (q - 1)) = 1
    · simp only [hch, ne_eq, not_true_eq_false, if_false, reduceIte, Except.ok.injEq,
        Prod.mk.injEq] at h
      obtain ⟨he, hd⟩ := h
      subst he; subst hd
      exact ⟨rfl, hch⟩
    · simp [hch] at h

/-- C2 counterexample: with `n = 15`, `e = 3`, `m = 1` and `r = 2`
(coprime to 15), `unblind(blind(1, 2), 2)` returns `4`, not `1`: the
unblind-after-blind composition alone is not the identity. -/
theorem unblind_blind_cex :
    Nat.gcd 2 15 = 1 ∧ unblind 15 (blind 15 3 1 2) 2 = .ok 4 ∧ (4 : ℕ) ≠ 1 :=
  ⟨by decide, rfl, by decide⟩

/-- C2 (amended): for a key with modulus `n` and exponent `e ≥ 1` and any
blinding factor `r` accepted by `unblind` (i.e. invertible mod `n`),
`unblind(blind(m, r), r) ≡ m * r^(e-1) (mod n)`.  The composition alone
does not return `m`; transparency only holds around an intervening
exponentiation by `d`, as in blinded decryption. -/
theorem unblind_blind_modEq (n e m r b : ℕ) (he : 1 ≤ e)
    (h : unblind n (blind n e m r) r = .ok b) :
    b ≡ m * r ^ (e - 1) [MOD n] := by
  have hpow : r ^ e = r ^ (e - 1) * r := by
    conv_lhs => rw [show e = (e - 1) + 1 by omega]
    rw [pow_succ]
  unfold unblind at h
  cases hinv : inverse r n with
  | error err => rw [hinv] at h; exact absurd h (by simp)
  | ok ri =>
    rw [hinv] at h
    simp only [Except.ok.injEq] at h
    subst h
    have hri : r * ri ≡ 1 [MOD n] := inverse_ok hinv
    calc (ri * blind n e m r) % n
        ≡ ri * blind n e m r [MOD n] := Nat.mod_modEq _ _
      _ ≡ ri * (m * r ^ e) [MOD n] := by
          unfold blind fast_pow
          exact Nat.ModEq.mul_left ri
            ((Nat.mod_modEq _ _).trans (Nat.ModEq.mul_left m (Nat.mod_modEq _ _)))
      _ = m * r ^ (e - 1) * (r * ri) := by rw [hpow]; ring
      _ ≡ m * r ^ (e - 1) * 1 [MOD n] := Nat.ModEq.mul_left _ hri
      _ = m * r ^ (e - 1) := by rw [mul_one]

/-- C2 witness: at `n = 15`, `e = 3`, `m = 1`, `r = 2` the amended
congruence is `4 ≡ 1 * 2^2 (mod 15)`. -/
theorem unblind_blind_modEq_witness : (4 : ℕ) ≡ 1 * 2 ^ (3 - 1) [MOD 15] :=
  unblind_blind_modEq 15 3 1 2 4 (by decide) rfl

/-- C5: `calculate_keys_custom_exponent(p, q, exponent)` computes
`phi = (p-1)(q-1)` and `d = inverse(exponent, phi)`; when
`gcd(exponent, phi) ≠ 1` it fails with the not-coprime error carrying the
offending GCD, re-raised with the contextual message naming `e` and
`phi_n`; on success it returns `(exponent, d)` with
`(exponent * d) mod phi = 1`, enforced by the defensive post-condition
check, whose failure raises the internal-consistency error. -/
theorem calculate_keys_custom_exponent_spec (p q exponent : ℕ) :
    (Nat.gcd exponent ((p - 1) * (q - 1)) ≠ 1 →
      calculate_keys_custom_exponent p q exponent =
        .error (.notRelativePrime exponent ((p - 1) * (q - 1))
          (Nat.gcd exponent ((p - 1) * (q - 1)))
          ("e (" ++ toString exponent ++ ") and phi_n (" ++
            toString ((p - 1) * (q - 1)) ++ ") are not relatively prime (divider=" ++
            toString (Nat.gcd exponent ((p - 1) * (q - 1))) ++ ")"))) ∧
    (∀ e d, calculate_keys_custom_exponent p q exponent = .ok (e, d) →
      e = exponent ∧ (exponent * d) % ((p - 1) * (q - 1)) = 1) ∧
    (Nat.gcd exponent ((p - 1) * (q - 1)) = 1 →
      (∃ d, calculate_keys_custom_exponent p q exponent = .ok (exponent, d) ∧
        (exponent * d) % ((p - 1) * (q - 1)) = 1) ∨
      (∃ d, calculate_keys_custom_exponent p q exponent =
        .error (.notMultInv exponent d ((p - 1) * (q - 1))))) := by
  refine ⟨?_, ?_, ?_⟩
  · intro hg
    unfold calculate_keys_custom_exponent
    rw [inverse_error _ _ hg]
  · intro e d h
    exact calculate_keys_ok h
  · intro hg
    obtain ⟨d0, hinv⟩ : ∃ d0, inverse exponent ((p - 1) * (q - 1)) = .ok d0 :=
      ⟨_, inverse_ok_of_gcd _ _ hg⟩
    by_cases hch : (exponent * d0) % ((p - 1) * (q - 1)) = 1
    · exact Or.inl ⟨d0, by unfold calculate_keys_custom_exponent; rw [hinv]; simp [hch], hch⟩
    · exact Or.inr ⟨d0, by unfold calculate_keys_custom_exponent; rw [hinv]; simp [hch]⟩

/-- C5 witness: with `p = 5`, `q = 11`, `exponent = 3` the successful
branch returns `(3, 27)` and `(3 * 27) mod 40 = 1`. -/
theorem calculate_keys_custom_exponent_spec_witness :
    (3 : ℕ) = 3 ∧ (3 * 27) % ((5 - 1) * (11 - 1)) = 1 :=
  (calculate_keys_custom_exponent_spec 5 11 3).2.1 3 27 rfl

/-- C6 counterexample: `__setstate__` takes the derived fields from the
state tuple: restoring the tampered state
`(15, 3, 3, 5, 3, 999, 9, 9)` yields a key with `exp1 = 999`, while
`d mod (p-1) = 3 mod 4 = 3`. -/
theorem setstate_derived_fields_cex :
    (setstate (15, 3, 3, 5, 3, 999, 9, 9)).exp1 ≠
      (setstate (15, 3, 3, 5, 3, 999, 9, 9)).d %
        ((setstate (15, 3, 3, 5, 3, 999, 9, 9)).p - 1) := by decide

/-- C6 (amended): every `PrivateKey` obtained from the constructor or
from the DER decode path has its derived fields recomputed from
`d, p, q`: `exp1 = d mod (p-1)`, `exp2 = d mod (q-1)` and
`coef * q ≡ 1 (mod p)`.  `__setstate__`, by contrast, installs all eight
fields, derived ones included, directly from the supplied state tuple
(see the counterexample). -/
theorem privateKey_derived_fields_recomputed
    (n e d p q : ℕ) (key : PrivateKey)
    (s : DecodedPrivKeySeq) (key2 : PrivateKey) (logged : Bool)
    (h1 : privateKey_init n e d p q = .ok key)
    (h2 : load_pkcs1_der s = .ok (key2, logged)) :
    (key.exp1 = d % (p - 1) ∧ key.exp2 = d % (q - 1) ∧ key.coef * q ≡ 1 [MOD p]) ∧
    (key2.exp1 = key2.d % (key2.p - 1) ∧ key2.exp2 = key2.d % (key2.q - 1) ∧
      key2.coef * key2.q ≡ 1 [MOD key2.p]) := by
  obtain ⟨hn1, he1, hd1, hp1, hq1, hx1, hx2, hcoef⟩ := privateKey_init_ok h1
  obtain ⟨hv, hinit2, hlog⟩ := load_pkcs1_der_ok h2
  obtain ⟨hn2, he2, hd2, hp2, hq2, hy1, hy2, hcoef2⟩ := privateKey_init_ok hinit2
  constructor
  · refine ⟨hx1, hx2, ?_⟩
    have h3 := inverse_ok hcoef
    rwa [mul_comm] at h3
  · refine ⟨?_, ?_, ?_⟩
    · rw [hy1, hd2, hp2]
    · rw [hy2, hd2, hq2]
    · rw [hq2, hp2]
      have h3 := inverse_ok hcoef2
      rwa [mul_comm] at h3

/-- C6 witness: the constructed key `PrivateKey(55, 3, 27, 5, 11)` and the
decoded sequence `(0, 55, 3, 27, 5, 11, 3, 7, 1)` both carry the
recomputed derived fields `exp1 = 3`, `exp2 = 7`, `coef = 1`. -/
theorem privateKey_derived_fields_recomputed_witness :
    (((⟨55, 3, 27, 5, 11, 3, 7, 1⟩ : PrivateKey).exp1 = 27 % (5 - 1) ∧
      (⟨55, 3, 27, 5, 11, 3, 7, 1⟩ : PrivateKey).exp2 = 27 % (11 - 1) ∧
      (⟨55, 3, 27, 5, 11, 3, 7, 1⟩ : PrivateKey).coef * 11 ≡ 1 [MOD 5]) ∧
    ((⟨55, 3, 27, 5, 11, 3, 7, 1⟩ : PrivateKey).exp1 =
        (⟨55, 3, 27, 5, 11, 3, 7, 1⟩ : PrivateKey).d %
          ((⟨55, 3, 27, 5, 11, 3, 7, 1⟩ : PrivateKey).p - 1) ∧
      (⟨55, 3, 27, 5, 11, 3, 7, 1⟩ : PrivateKey).exp2 =
        (⟨55, 3, 27, 5, 11, 3, 7, 1⟩ : PrivateKey).d %
          ((⟨55, 3, 27, 5, 11, 3, 7, 1⟩ : PrivateKey).q - 1) ∧
      (⟨55, 3, 27, 5, 11, 3, 7, 1⟩ : PrivateKey).coef *
          (⟨55, 3, 27, 5, 11, 3, 7, 1⟩ : PrivateKey).q ≡ 1
        [MOD (⟨55, 3, 27, 5, 11, 3, 7, 1⟩ : PrivateKey).p])) :=
  privateKey_derived_fields_recomputed 55 3 27 5 11 ⟨55, 3, 27, 5, 11, 3, 7, 1⟩
    ⟨0, 55, 3, 27, 5, 11, 3, 7, 1⟩ ⟨55, 3, 27, 5, 11, 3, 7, 1⟩ false rfl rfl

/-- C7 counterexample: the decoded sequence `(0, 8, 3, 3, 4, 2, 1, 1, 1)`
has `version = 0`, yet decoding fails, because the constructor recomputes
`coef = inverse(q, p) = inverse(2, 4)` and `gcd(2, 4) = 2 ≠ 1`: decode
does not fail *exactly* when the version is nonzero. -/
theorem load_pkcs1_der_version_cex :
    load_pkcs1_der ⟨0, 8, 3, 3, 4, 2, 1, 1, 1⟩ =
      .error (.notRelativePrime 2 4 2 "2 and 4 are not relatively prime, divider=2") := rfl

/-- C7 (amended): private-key DER decode fails when the version field is
nonzero (version error), or when `p = 1` or `q = 1` so that the
recomputation of the CRT exponents divides by a zero modulus
(`ZeroDivisionError`), or when the recomputation of `coef` fails because
`q` is not invertible modulo `p` (not-relatively-prime error).  When
`version = 0` and the build succeeds, the key comes from
`PrivateKey.__init__` on the first five integers with `exp1`/`exp2`
recomputed, a mismatch with the encoded `exponent1`/`exponent2`/
`coefficient` is only logged, and the returned key does not depend on
those three encoded fields; when additionally `p ≠ 1`, `q ≠ 1` and
`gcd(q, p) = 1` decode does succeed. -/
theorem load_pkcs1_der_spec (s : DecodedPrivKeySeq) (a b c : ℕ) :
    (s.version ≠ 0 → load_pkcs1_der s = .error (.versionError s.version)) ∧
    (∀ key logged, load_pkcs1_der s = .ok (key, logged) →
      s.version = 0 ∧ privateKey_init s.n s.e s.d s.p s.q = .ok key ∧
      key.exp1 = s.d % (s.p - 1) ∧ key.exp2 = s.d % (s.q - 1) ∧
      (logged = true ↔ ¬(key.exp1 = s.exp1 ∧ key.exp2 = s.exp2 ∧ key.coef = s.coef))) ∧
    ((load_pkcs1_der { s with exp1 := a, exp2 := b, coef := c }).map Prod.fst =
      (load_pkcs1_der s).map Prod.fst) ∧
    (s.version = 0 → s.p ≠ 1 → s.q ≠ 1 → Nat.gcd s.q s.p = 1 →
      ∃ key logged, load_pkcs1_der s = .ok (key, logged)) ∧
    (s.version = 0 → (s.p = 1 ∨ s.q = 1) →
      load_pkcs1_der s = .error .zeroDivisionError) := by
  refine ⟨?_, ?_, ?_, ?_, ?_⟩
  · intro hv
    unfold load_pkcs1_der
    rw [if_pos hv]
  · intro key logged h
    obtain ⟨hv, hinit, hlog⟩ := load_pkcs1_der_ok h
    obtain ⟨-, -, -, -, -, hx1, hx2, -⟩ := privateKey_init_ok hinit
    refine ⟨hv, hinit, hx1, hx2, ?_⟩
    rw [hlog]
    simp only [decide_eq_true_eq]
  · unfold load_pkcs1_der
    by_cases hv : s.version ≠ 0
    · simp [hv]
    · push_neg at hv
      simp only [hv, ne_eq, not_true_eq_false, if_false, reduceIte]
      cases hinit : privateKey_init s.n s.e s.d s.p s.q with
      | error err => simp [hinit]
      | ok key => simp [hinit, Except.map]
  · intro hv hp1 hq1 hg
    cases hres : load_pkcs1_der s with
    | ok kl => exact ⟨kl.1, kl.2, rfl⟩
    | error err =>
      exfalso
      unfold load_pkcs1_der at hres
      rw [if_neg (by simp [hv])] at hres
      cases hinit : privateKey_init s.n s.e s.d s.p s.q with
      | ok key => rw [hinit] at hres; exact absurd hres (by simp)
      | error e2 =>
        rcases privateKey_init_error hinit with ⟨hpq, -⟩ | ⟨hgne, -⟩
        · rcases hpq with h1 | h1
          · exact hp1 h1
          · exact hq1 h1
        · exact hgne hg
  · intro hv hpq
    have hinit : privateKey_init s.n s.e s.d s.p s.q = .error .zeroDivisionError := by
      unfold privateKey_init
      rcases hpq with h1 | h1
      · rw [if_pos h1]
      · by_cases hp1 : s.p = 1
        · rw [if_pos hp1]
        · rw [if_neg hp1, if_pos h1]
    unfold load_pkcs1_der
    rw [if_neg (by simp [hv]), hinit]

/-- C7 witness: a nonzero version is rejected with the version error,
the well-formed sequence `(0, 55, 3, 27, 5, 11, 3, 7, 1)` decodes to the
recomputed key without a log line, and the version-0 sequence
`(0, 6, 3, 3, 2, 1, 1, 1, 1)` (with `q = 1`) raises
`ZeroDivisionError`. -/
theorem load_pkcs1_der_spec_witness :
    (load_pkcs1_der ⟨1, 55, 3, 27, 5, 11, 3, 7, 1⟩ = .error (.versionError 1)) ∧
    ((0 : ℕ) = 0 ∧
      privateKey_init 55 3 27 5 11 = .ok ⟨55, 3, 27, 5, 11, 3, 7, 1⟩ ∧
      (⟨55, 3, 27, 5, 11, 3, 7, 1⟩ : PrivateKey).exp1 = 27 % (5 - 1) ∧
      (⟨55, 3, 27, 5, 11, 3, 7, 1⟩ : PrivateKey).exp2 = 27 % (11 - 1) ∧
      (false = true ↔
        ¬((⟨55, 3, 27, 5, 11, 3, 7, 1⟩ : PrivateKey).exp1 = 3 ∧
          (⟨55, 3, 27, 5, 11, 3, 7, 1⟩ : PrivateKey).exp2 = 7 ∧
          (⟨55, 3, 27, 5, 11, 3, 7, 1⟩ : PrivateKey).coef = 1))) ∧
    (∃ key logged,
      load_pkcs1_der ⟨0, 55, 3, 27, 5, 11, 3, 7, 1⟩ = .ok (key, logged)) ∧
    (load_pkcs1_der ⟨0, 6, 3, 3, 2, 1, 1, 1, 1⟩ = .error .zeroDivisionError) :=
  ⟨(load_pkcs1_der_spec ⟨1, 55, 3, 27, 5, 11, 3, 7, 1⟩ 0 0 0).1 (by decide),
   (load_pkcs1_der_spec ⟨0, 55, 3, 27, 5, 11, 3, 7, 1⟩ 0 0 0).2.1
     ⟨55, 3, 27, 5, 11, 3, 7, 1⟩ false rfl,
   (load_pkcs1_der_spec ⟨0, 55, 3, 27, 5, 11, 3, 7, 1⟩ 0 0 0).2.2.2.1 rfl
     (by decide) (by decide) (by decide),
   (load_pkcs1_der_spec ⟨0, 6, 3, 3, 2, 1, 1, 1, 1⟩ 0 0 0).2.2.2.2 rfl
     (Or.inr rfl)⟩

/-- C8 counterexample: the decode direction is not format-selectable:
`load_pkcs1` with the supported format `'PEM'` does not dispatch but
unconditionally raises `NotImplementedError`. -/
theorem load_pkcs1_cex :
    load_pkcs1 "PEM" =
      .error (.notImplementedError
        "Loading PEM Files not supported by this CircuitPython library.") := rfl

/-- C8 (amended): the encode direction `save_pkcs1` is selectable through
the enumerated choice `'PEM' | 'DER'`, dispatching to the corresponding
method, and any other format fails with the value error naming the
supported set `"DER, PEM"`; the decode direction `load_pkcs1`, however,
unconditionally raises `NotImplementedError` whatever the format. -/
theorem save_load_pkcs1_dispatch (fmt : String) :
    save_pkcs1 "PEM" = .ok KeyMethod.pem ∧
    save_pkcs1 "DER" = .ok KeyMethod.der ∧
    (fmt ≠ "PEM" → fmt ≠ "DER" →
      save_pkcs1 fmt = .error (.unsupportedFormat fmt "DER, PEM")) ∧
    load_pkcs1 fmt =
      .error (.notImplementedError
        "Loading PEM Files not supported by this CircuitPython library.") := by
  refine ⟨rfl, rfl, ?_, rfl⟩
  intro h1 h2
  unfold save_pkcs1 assert_format_exists
  have b1 : (fmt == "PEM") = false := beq_eq_false_iff_ne.mpr h1
  have b2 : (fmt == "DER") = false := beq_eq_false_iff_ne.mpr h2
  simp [List.lookup, b1, b2]
  rfl

/-- C8 witness: the unsupported format `'XXX'` is rejected by
`save_pkcs1` with the error naming `"DER, PEM"`. -/
theorem save_load_pkcs1_dispatch_witness :
    save_pkcs1 "XXX" = .error (.unsupportedFormat "XXX" "DER, PEM") :=
  (save_load_pkcs1_dispatch "XXX").2.2.1 (by decide) (by decide)

/-- C9: `newkeys` rejects every `nbits < 16` with the size error
(`ValueError("Key too small")`) regardless of the prime stream — no prime
search runs — and for `nbits ≥ 16` the size check passes: the size error
can no longer be the outcome. -/
theorem newkeys_size_check (gp : ℕ → ℕ → ℕ) (k nbits poolsize exponent fuel : ℕ)
    (accurate : Bool) :
    (nbits < 16 →
      newkeys gp k nbits accurate poolsize exponent fuel = some (.error .keyTooSmall)) ∧
    (16 ≤ nbits →
      newkeys gp k nbits accurate poolsize exponent fuel ≠ some (.error .keyTooSmall)) := by
  constructor
  · intro h
    unfold newkeys
    rw [if_pos h]
  · intro h hcontra
    unfold newkeys at hcontra
    rw [if_neg (by omega)] at hcontra
    by_cases hps : poolsize < 1
    · rw [if_pos hps] at hcontra
      simp at hcontra
    · rw [if_neg hps] at hcontra
      cases hgen : gen_keys gp k nbits accurate exponent fuel with
      | none => rw [hgen] at hcontra; exact absurd hcontra (by simp)
      | some res =>
        obtain ⟨⟨p, q, e, d⟩, k2⟩ := res
        rw [hgen] at hcontra
        dsimp only at hcontra
        cases hinit : privateKey_init (p * q) e d p q with
        | error err =>
          rw [hinit] at hcontra
          simp only [Option.some.injEq, Except.error.injEq] at hcontra
          rcases privateKey_init_error hinit with ⟨-, herr⟩ | ⟨-, herr⟩ <;>
            (rw [hcontra] at herr; exact absurd herr (by simp))
        | ok priv => rw [hinit] at hcontra; exact absurd hcontra (by simp)

/-- C9 witness: `nbits = 8` is rejected as too small for any prime
stream, while at `nbits = 16` the run with the stream producing 251 and
241 does not produce the size error. -/
theorem newkeys_size_check_witness :
    (newkeys (fun _ _ => 0) 0 8 true 1 65537 0 = some (.error .keyTooSmall)) ∧
    (newkeys (fun j _ => if j = 0 then 251 else 241) 0 16 true 1 65537 4 ≠
      some (.error .keyTooSmall)) :=
  ⟨(newkeys_size_check (fun _ _ => 0) 0 8 1 65537 0 true).1 (by decide),
   (newkeys_size_check (fun j _ => if j = 0 then 251 else 241) 0 16 1 65537 4 true).2
     (by decide)⟩

/-- C10: `newkeys` raises a `ValueError` whenever `poolsize < 1`
(specifically the pool-size error once the size check passed), and for
`poolsize ≥ 1` the parameter has no influence: two runs differing only in
their (≥ 1) poolsize, with the same prime stream, return identical
results. -/
theorem newkeys_poolsize_spec (gp : ℕ → ℕ → ℕ) (k nbits exponent fuel ps ps1 ps2 : ℕ)
    (accurate : Bool) :
    (ps < 1 → ∃ err, newkeys gp k nbits accurate ps exponent fuel = some (.error err) ∧
      err.isValueError = true) ∧
    (16 ≤ nbits → ps < 1 →
      newkeys gp k nbits accurate ps exponent fuel = some (.error (.poolSizeError ps))) ∧
    (1 ≤ ps1 → 1 ≤ ps2 →
      newkeys gp k nbits accurate ps1 exponent fuel =
        newkeys gp k nbits accurate ps2 exponent fuel) := by
  refine ⟨?_, ?_, ?_⟩
  · intro hps
    by_cases hn : nbits < 16
    · exact ⟨.keyTooSmall, by unfold newkeys; rw [if_pos hn], rfl⟩
    · exact ⟨.poolSizeError ps, by unfold newkeys; rw [if_neg hn, if_pos hps], rfl⟩
  · intro hn hps
    unfold newkeys
    rw [if_neg (by omega), if_pos hps]
  · intro h1 h2
    unfold newkeys
    by_cases hn : nbits < 16
    · rw [if_pos hn, if_pos hn]
    · rw [if_neg hn, if_neg hn, if_neg (by omega), if_neg (by omega)]

/-- C10 witness: `poolsize = 0` is rejected with a `ValueError`, and
poolsizes 1 and 7 give identical runs on the same stream. -/
theorem newkeys_poolsize_spec_witness :
    (∃ err, newkeys (fun j _ => if j = 0 then 251 else 241) 0 16 true 0 65537 4 =
      some (.error err) ∧ err.isValueError = true) ∧
    (newkeys (fun j _ => if j = 0 then 251 else 241) 0 16 true 0 65537 4 =
      some (.error (.poolSizeError 0))) ∧
    (newkeys (fun j _ => if j = 0 then 251 else 241) 0 16 true 1 65537 4 =
      newkeys (fun j _ => if j = 0 then 251 else 241) 0 16 true 7 65537 4) :=
  ⟨(newkeys_poolsize_spec (fun j _ => if j = 0 then 251 else 241) 0 16 65537 4 0 1 7
      true).1 (by decide),
   (newkeys_poolsize_spec (fun j _ => if j = 0 then 251 else 241) 0 16 65537 4 0 1 7
      true).2.1 (by decide) (by decide),
   (newkeys_poolsize_spec (fun j _ => if j = 0 then 251 else 241) 0 16 65537 4 0 1 7
      true).2.2 (by decide) (by decide)⟩


/-- What an accepted pair satisfies. -/
theorem is_acceptable_true {accurate : Bool} {tb p q : ℕ}
    (h : is_acceptable accurate tb p q = true) :
    p ≠ q ∧ (accurate = true → tb = bit_size (p * q)) := by
  unfold is_acceptable at h
  by_cases hpq : p = q
  · rw [if_pos hpq] at h
    exact absurd h (by simp)
  · refine ⟨hpq, fun ha => ?_⟩
    subst ha
    rw [if_neg hpq] at h
    simpa using h

/-- Any pair returned by the `find_p_q` acceptability loop is ordered
strictly (`max` before `min` of a distinct pair) and, in accurate mode,
has a product of exactly `total_bits` bits. -/
theorem find_p_q_loop_some (gp : ℕ → ℕ → ℕ) (accurate : Bool) (tb pb qb : ℕ) :
    ∀ (fuel k p q : ℕ) (cp : Bool) (pr qr k2 : ℕ),
      find_p_q_loop gp accurate tb pb qb fuel k p q cp = some ((pr, qr), k2) →
      qr < pr ∧ pr ≠ qr ∧ (accurate = true → tb = bit_size (pr * qr)) := by
  intro fuel
  induction fuel with
  | zero =>
    intro k p q cp pr qr k2 h
    unfold find_p_q_loop at h
    by_cases hacc : is_acceptable accurate tb p q = true
    · rw [if_pos hacc] at h
      simp only [Option.some.injEq, Prod.mk.injEq] at h
      obtain ⟨⟨hpr, hqr⟩, -⟩ := h
      obtain ⟨hne, hbits⟩ := is_acceptable_true hacc
      subst hpr; subst hqr
      have hlt : min p q < max p q := min_lt_max.mpr hne
      refine ⟨hlt, hlt.ne', fun ha => ?_⟩
      rw [max_mul_min]
      exact hbits ha
    · rw [if_neg hacc] at h
      exact absurd h (by simp)
  | succ f ih =>
    intro k p q cp pr qr k2 h
    unfold find_p_q_loop at h
    by_cases hacc : is_acceptable accurate tb p q = true
    · rw [if_pos hacc] at h
      simp only [Option.some.injEq, Prod.mk.injEq] at h
      obtain ⟨⟨hpr, hqr⟩, -⟩ := h
      obtain ⟨hne, hbits⟩ := is_acceptable_true hacc
      subst hpr; subst hqr
      have hlt : min p q < max p q := min_lt_max.mpr hne
      refine ⟨hlt, hlt.ne', fun ha => ?_⟩
      rw [max_mul_min]
      exact hbits ha
    · rw [if_neg hacc] at h
      cases cp with
      | true => exact ih (k + 1) (gp k pb) q false pr qr k2 h
      | false => exact ih (k + 1) p (gp k qb) true pr qr k2 h

/-- Postcondition of `find_p_q`: the returned pair is strictly ordered,
distinct, and in accurate mode the product has exactly `2 * nbits`
bits. -/
theorem find_p_q_some {gp : ℕ → ℕ → ℕ} {k nbits : ℕ} {accurate : Bool} {fuel p q k2 : ℕ}
    (h : find_p_q gp k nbits accurate fuel = some ((p, q), k2)) :
    q < p ∧ p ≠ q ∧ (accurate = true → bit_size (p * q) = 2 * nbits) := by
  unfold find_p_q at h
  obtain ⟨h1, h2, h3⟩ := find_p_q_loop_some gp accurate (nbits * 2) (nbits + nbits / 16)
    (nbits - nbits / 16) fuel (k + 2) (gp k (nbits + nbits / 16))
    (gp (k + 1) (nbits - nbits / 16)) false p q k2 h
  exact ⟨h1, h2, fun ha => by rw [← h3 ha, Nat.mul_comm]⟩

/-- Postcondition of the `gen_keys` retry loop: the returned tuple has
distinct primes and exponents satisfying the key equation modulo
`(p-1)(q-1)`, with `e` the requested public exponent. -/
theorem gen_keys_loop_some (gp : ℕ → ℕ → ℕ) (exponent : ℕ) (accurate : Bool) (nbits : ℕ) :
    ∀ (fuel k p q e d k2 : ℕ),
      gen_keys_loop gp exponent accurate nbits fuel k = some ((p, q, e, d), k2) →
      p ≠ q ∧ e = exponent ∧ (exponent * d) % ((p - 1) * (q - 1)) = 1 := by
  intro fuel
  induction fuel with
  | zero =>
    intro k p q e d k2 h
    exact absurd h (by simp [gen_keys_loop])
  | succ f ih =>
    intro k p q e d k2 h
    unfold gen_keys_loop at h
    cases hfp : find_p_q gp k (nbits / 2) accurate f with
    | none => rw [hfp] at h; exact absurd h (by simp)
    | some res =>
      obtain ⟨⟨p2, q2⟩, k3⟩ := res
      rw [hfp] at h
      dsimp only at h
      cases hck : calculate_keys_custom_exponent p2 q2 exponent with
      | error err =>
        rw [hck] at h
        exact ih k3 p q e d k2 h
      | ok ed =>
        obtain ⟨e2, d2⟩ := ed
        rw [hck] at h
        simp only [Option.some.injEq, Prod.mk.injEq] at h
        obtain ⟨⟨hp, hq, he, hd⟩, -⟩ := h
        subst hp; subst hq; subst he; subst hd
        obtain ⟨-, hne, -⟩ := find_p_q_some hfp
        obtain ⟨he2, hch⟩ := calculate_keys_ok hck
        exact ⟨hne, he2, by rw [← he2]; exact he2 ▸ hch⟩

/-- C4: every successful `find_p_q(nbits, ..., accurate=true)` returns
`(p, q)` with `p > q`, `p ≠ q` and `bit_length(p * q) = 2 * nbits` (the
pair is the `(max, min)` of the accepted primes), and on a failed
acceptability check the loop re-samples `q` and `p` alternately: with the
alternation flag down it re-draws `q` and raises the flag, with the flag
up it re-draws `p` and lowers it. -/
theorem find_p_q_accurate_spec (gp : ℕ → ℕ → ℕ)
    (k nbits fuel p q k2 tb pb qb j fuel2 p0 q0 : ℕ) :
    (find_p_q gp k nbits true fuel = some ((p, q), k2) →
      q < p ∧ p ≠ q ∧ bit_size (p * q) = 2 * nbits) ∧
    (is_acceptable true tb p0 q0 = false →
      find_p_q_loop gp true tb pb qb (fuel2 + 1) j p0 q0 false =
        find_p_q_loop gp true tb pb qb fuel2 (j + 1) p0 (gp j qb) true) ∧
    (is_acceptable true tb p0 q0 = false →
      find_p_q_loop gp true tb pb qb (fuel2 + 1) j p0 q0 true =
        find_p_q_loop gp true tb pb qb fuel2 (j + 1) (gp j pb) q0 false) := by
  refine ⟨?_, ?_, ?_⟩
  · intro h
    obtain ⟨h1, h2, h3⟩ := find_p_q_some h
    exact ⟨h1, h2, h3 rfl⟩
  · intro hacc
    conv_lhs => rw [find_p_q_loop]
    rw [if_neg (by simp [hacc])]
    rfl
  · intro hacc
    conv_lhs => rw [find_p_q_loop]
    rw [if_neg (by simp [hacc])]
    rfl

/-- C4 witness: the stream producing 13 then 11 is accepted at once for
`nbits = 4` (`143` has `8` bits), and an unacceptable equal pair
`(13, 13)` triggers the re-sampling steps in both flag states. -/
theorem find_p_q_accurate_spec_witness :
    ((11 : ℕ) < 13 ∧ (13 : ℕ) ≠ 11 ∧ bit_size (13 * 11) = 2 * 4) ∧
    (find_p_q_loop (fun j _ => if j = 0 then 13 else 11) true 8 4 4 1 0 13 13 false =
      find_p_q_loop (fun j _ => if j = 0 then 13 else 11) true 8 4 4 0 1 13
        ((fun j _ => if j = 0 then 13 else 11) 0 4) true) ∧
    (find_p_q_loop (fun j _ => if j = 0 then 13 else 11) true 8 4 4 1 0 13 13 true =
      find_p_q_loop (fun j _ => if j = 0 then 13 else 11) true 8 4 4 0 1
        ((fun j _ => if j = 0 then 13 else 11) 0 4) 13 false) :=
  ⟨(find_p_q_accurate_spec (fun j _ => if j = 0 then 13 else 11)
      0 4 3 13 11 2 8 4 4 0 0 13 13).1 rfl,
   (find_p_q_accurate_spec (fun j _ => if j = 0 then 13 else 11)
      0 4 3 13 11 2 8 4 4 0 0 13 13).2.1 (by decide),
   (find_p_q_accurate_spec (fun j _ => if j = 0 then 13 else 11)
      0 4 3 13 11 2 8 4 4 0 0 13 13).2.2 (by decide)⟩

/-- C1: every key pair returned by `newkeys` (necessarily with
`nbits ≥ 16`) has the public and private halves agreeing on `n` and `e`,
and the private key satisfies `n = p * q`,
`(e * d) mod ((p-1)(q-1)) = 1` and `p ≠ q`. -/
theorem newkeys_key_pair_valid (gp : ℕ → ℕ → ℕ)
    (k nbits poolsize exponent fuel : ℕ) (accurate : Bool)
    (pub : PublicKey) (priv : PrivateKey) (hn : 16 ≤ nbits)
    (h : newkeys gp k nbits accurate poolsize exponent fuel = some (.ok (pub, priv))) :
    pub.n = priv.n ∧ pub.e = priv.e ∧ priv.n = priv.p * priv.q ∧
    (priv.e * priv.d) % ((priv.p - 1) * (priv.q - 1)) = 1 ∧ priv.p ≠ priv.q := by
  unfold newkeys at h
  rw [if_neg (by omega)] at h
  by_cases hps : poolsize < 1
  · rw [if_pos hps] at h
    exact absurd h (by simp)
  · rw [if_neg hps] at h
    cases hgen : gen_keys gp k nbits accurate exponent fuel with
    | none => rw [hgen] at h; exact absurd h (by simp)
    | some res =>
      obtain ⟨⟨p, q, e, d⟩, k2⟩ := res
      rw [hgen] at h
      dsimp only at h
      cases hinit : privateKey_init (p * q) e d p q with
      | error err => rw [hinit] at h; exact absurd h (by simp)
      | ok priv2 =>
        rw [hinit] at h
        simp only [Option.some.injEq, Except.ok.injEq, Prod.mk.injEq] at h
        obtain ⟨hpub, hpriv⟩ := h
        subst hpub; subst hpriv
        obtain ⟨hn2, he2, hd2, hp2, hq2, -, -, -⟩ := privateKey_init_ok hinit
        obtain ⟨hne, hee, hch⟩ := gen_keys_loop_some gp exponent accurate nbits fuel k
          p q e d k2 hgen
        refine ⟨by rw [hn2], by rw [he2], ?_, ?_, ?_⟩
        · rw [hn2, hp2, hq2]
        · rw [he2, hd2, hp2, hq2, hee]
          exact hch
        · rw [hp2, hq2]
          exact hne

/-- C1 witness: with the prime stream producing 251 and 241 at
`nbits = 16`, `newkeys` returns the pair
`(PublicKey(60491, 65537), PrivateKey(60491, 65537, 33473, 251, 241))`,
which satisfies all five properties. -/
theorem newkeys_key_pair_valid_witness :
    (PublicKey.mk 60491 65537).n = (PrivateKey.mk 60491 65537 33473 251 241 223 113 25).n ∧
    (PublicKey.mk 60491 65537).e = (PrivateKey.mk 60491 65537 33473 251 241 223 113 25).e ∧
    (PrivateKey.mk 60491 65537 33473 251 241 223 113 25).n =
      (PrivateKey.mk 60491 65537 33473 251 241 223 113 25).p *
        (PrivateKey.mk 60491 65537 33473 251 241 223 113 25).q ∧
    ((PrivateKey.mk 60491 65537 33473 251 241 223 113 25).e *
        (PrivateKey.mk 60491 65537 33473 251 241 223 113 25).d) %
        (((PrivateKey.mk 60491 65537 33473 251 241 223 113 25).p - 1) *
          ((PrivateKey.mk 60491 65537 33473 251 241 223 113 25).q - 1)) = 1 ∧
    (PrivateKey.mk 60491 65537 33473 251 241 223 113 25).p ≠
      (PrivateKey.mk 60491 65537 33473 251 241 223 113 25).q :=
  newkeys_key_pair_valid (fun j _ => if j = 0 then 251 else 241) 0 16 1 65537 4 true
    (PublicKey.mk 60491 65537) (PrivateKey.mk 60491 65537 33473 251 241 223 113 25)
    (by decide) rfl

/-- Fermat-style step: modulo a prime `p`, raising to a power of the form
`(p-1)*t + 1` fixes every residue (including multiples of `p`). -/
theorem prime_pow_modEq {p : ℕ} (hp : p.Prime) (t m : ℕ) :
    m ^ ((p - 1) * t + 1) ≡ m [MOD p] := by
  by_cases hdvd : p ∣ m
  · have h0 : m ≡ 0 [MOD p] := Nat.modEq_zero_iff_dvd.mpr hdvd
    calc m ^ ((p - 1) * t + 1) ≡ 0 ^ ((p - 1) * t + 1) [MOD p] := h0.pow _
      _ = 0 := by rw [zero_pow]; omega
      _ ≡ m [MOD p] := h0.symm
  · have hco : Nat.Coprime m p :=
      Nat.coprime_comm.mp ((Nat.Prime.coprime_iff_not_dvd hp).mpr hdvd)
    have h1 : m ^ (p - 1) ≡ 1 [MOD p] := by
      have h2 := Nat.ModEq.pow_totient hco
      rwa [Nat.totient_prime hp] at h2
    calc m ^ ((p - 1) * t + 1) = (m ^ (p - 1)) ^ t * m := by
          rw [← pow_mul, ← pow_succ]
      _ ≡ 1 ^ t * m [MOD p] := Nat.ModEq.mul_right m (h1.pow t)
      _ = m := by rw [one_pow, one_mul]

/-- The RSA core identity: for distinct primes `p, q` and exponents with
`(e * d) mod ((p-1)(q-1)) = 1`, raising to the `e * d` fixes every
residue modulo `p * q`. -/
theorem rsa_pow_modEq {p q e d : ℕ} (hp : p.Prime) (hq : q.Prime) (hpq : p ≠ q)
    (hed : (e * d) % ((p - 1) * (q - 1)) = 1) (m : ℕ) :
    m ^ (e * d) ≡ m [MOD p * q] := by
  obtain ⟨t, hsplit⟩ : ∃ t, e * d = (p - 1) * (q - 1) * t + 1 := by
    refine ⟨(e * d) / ((p - 1) * (q - 1)), ?_⟩
    conv_lhs => rw [← Nat.div_add_mod (e * d) ((p - 1) * (q - 1))]
    rw [hed]
  have hmodp : m ^ (e * d) ≡ m [MOD p] := by
    have h2 : e * d = (p - 1) * ((q - 1) * t) + 1 := by rw [hsplit]; ring
    rw [h2]
    exact prime_pow_modEq hp _ m
  have hmodq : m ^ (e * d) ≡ m [MOD q] := by
    have h2 : e * d = (q - 1) * ((p - 1) * t) + 1 := by rw [hsplit]; ring
    rw [h2]
    exact prime_pow_modEq hq _ m
  exact (Nat.modEq_and_modEq_iff_modEq_mul
    ((Nat.coprime_primes hp hq).mpr hpq)).mp ⟨hmodp, hmodq⟩

/-- C3: raw round-trip through blinded decryption: for a private key
whose parameters come from distinct primes with
`(e * d) mod ((p-1)(q-1)) = 1` and `n = p * q`, any message `m < n`, and
any blinding factor `r` in `[1, n-1]` coprime to `n` as sampled by the
randomness source, `blinded_decrypt(m^e mod n)` with that factor returns
`m`. -/
theorem blinded_decrypt_encrypt_roundtrip
    (key : PrivateKey) (p q m r : ℕ)
    (hp : p.Prime) (hq : q.Prime) (hpq : p ≠ q)
    (hn : key.n = p * q)
    (hed : (key.e * key.d) % ((p - 1) * (q - 1)) = 1)
    (hm : m < key.n) (hr1 : 1 ≤ r) (hr2 : r ≤ key.n - 1)
    (hcop : Nat.gcd r key.n = 1) :
    blinded_decrypt key r (encrypt_int m key.e key.n) = .ok m := by
  have hn0 : 0 < key.n := by
    rw [hn]; exact Nat.mul_pos hp.pos hq.pos
  obtain ⟨ri, hinv⟩ : ∃ ri, inverse r key.n = .ok ri :=
    ⟨_, inverse_ok_of_gcd r key.n hcop⟩
  have hri : r * ri ≡ 1 [MOD key.n] := inverse_ok hinv
  unfold blinded_decrypt unblind
  rw [hinv]
  dsimp only
  have hchain : ri * decrypt_int (blind key.n key.e (encrypt_int m key.e key.n) r)
      key.d key.n ≡ m [MOD key.n] := by
    have hblind : blind key.n key.e (encrypt_int m key.e key.n) r ≡
        m ^ key.e * r ^ key.e [MOD key.n] := by
      unfold blind encrypt_int fast_pow
      calc (m ^ key.e % key.n * (r ^ key.e % key.n)) % key.n
          ≡ m ^ key.e % key.n * (r ^ key.e % key.n) [MOD key.n] := Nat.mod_modEq _ _
        _ ≡ m ^ key.e * r ^ key.e [MOD key.n] :=
            Nat.ModEq.mul (Nat.mod_modEq _ _) (Nat.mod_modEq _ _)
    have hdec : decrypt_int (blind key.n key.e (encrypt_int m key.e key.n) r)
        key.d key.n ≡ m * r [MOD key.n] := by
      unfold decrypt_int fast_pow
      calc (blind key.n key.e (encrypt_int m key.e key.n) r) ^ key.d % key.n
          ≡ (blind key.n key.e (encrypt_int m key.e key.n) r) ^ key.d [MOD key.n] :=
            Nat.mod_modEq _ _
        _ ≡ (m ^ key.e * r ^ key.e) ^ key.d [MOD key.n] := hblind.pow _
        _ = m ^ (key.e * key.d) * r ^ (key.e * key.d) := by
            rw [mul_pow, pow_mul, pow_mul]
        _ ≡ m * r [MOD key.n] := by
            rw [hn]
            exact Nat.ModEq.mul (rsa_pow_modEq hp hq hpq hed m)
              (rsa_pow_modEq hp hq hpq hed r)
    calc ri * decrypt_int (blind key.n key.e (encrypt_int m key.e key.n) r) key.d key.n
        ≡ ri * (m * r) [MOD key.n] := Nat.ModEq.mul_left ri hdec
      _ = m * (r * ri) := by ring
      _ ≡ m * 1 [MOD key.n] := Nat.ModEq.mul_left m hri
      _ = m := by rw [mul_one]
  have hfinal : (ri * decrypt_int (blind key.n key.e (encrypt_int m key.e key.n) r)
      key.d key.n) % key.n = m := by
    have h2 := (Nat.mod_modEq _ key.n).trans hchain
    unfold Nat.ModEq at h2
    rwa [Nat.mod_mod_of_dvd _ dvd_rfl, Nat.mod_eq_of_lt hm] at h2
  rw [hfinal]

/-- C3 witness: for the key `PrivateKey(55, 3, 27, 5, 11)`, message
`m = 2` and blinding factor `r = 7`, blinded decryption of
`2^3 mod 55 = 8` returns `2`. -/
theorem blinded_decrypt_encrypt_roundtrip_witness :
    blinded_decrypt ⟨55, 3, 27, 5, 11, 3, 7, 1⟩ 7
      (encrypt_int 2 (⟨55, 3, 27, 5, 11, 3, 7, 1⟩ : PrivateKey).e
        (⟨55, 3, 27, 5, 11, 3, 7, 1⟩ : PrivateKey).n) = .ok 2 :=
  blinded_decrypt_encrypt_roundtrip ⟨55, 3, 27, 5, 11, 3, 7, 1⟩ 5 11 2 7
    (by norm_num) (by norm_num) (by decide) rfl (by decide) (by decide) (by decide)
    (by decide) (by decide)
